import Mathlib

/-!
Shallow embedding of the options pricing and Greeks engine
(`src/pricing`, `src/calibration`, `src/monte_carlo`, `src/utils`) over the
real numbers.  Each definition mirrors one C++ function; machine doubles are
modelled as reals (so `x / 0 = 0` in the model where C++ IEEE arithmetic would
give an infinity or NaN).  The one place a claim is about an IEEE special
value, the single affected operation is modelled by an explicit value type
(`DVal`).  RNG draws (`std::mt19937_64` + `std::normal_distribution`, whose
output stream is implementation-defined) are modelled as explicit input
sequences of reals.
-/

noncomputable section

namespace opt

/-- The C++ `enum class OptionType { CALL, PUT }` from `src/pricing/types.h`. -/
inductive OptionType where
  | CALL : OptionType
  | PUT : OptionType
deriving DecidableEq

/-- The C++ `enum class ExerciseStyle { EUROPEAN, AMERICAN }` from `src/pricing/types.h`. -/
inductive ExerciseStyle where
  | EUROPEAN : ExerciseStyle
  | AMERICAN : ExerciseStyle
deriving DecidableEq

/-- The C++ `struct OptionParams` from `src/pricing/types.h` (field order S, K, T, r,
sigma, q, type, style; style defaults to EUROPEAN). -/
structure OptionParams where
  S : ℝ
  K : ℝ
  T : ℝ
  r : ℝ
  sigma : ℝ
  q : ℝ
  type : OptionType
  style : ExerciseStyle := ExerciseStyle.EUROPEAN

/-- The helper `intrinsic_value(S, K, type)` from `src/pricing/types.h`. -/
def intrinsic_value (S K : ℝ) (type : OptionType) : ℝ :=
  if type = OptionType.CALL then max (S - K) 0 else max (K - S) 0

/-- Abramowitz–Stegun polynomial coefficient `a1` of `norm_cdf`
(`src/utils/normal_dist.h`). -/
def ncA1 : ℝ := 0.254829592

/-- Coefficient `a2` of `norm_cdf`. -/
def ncA2 : ℝ := -0.284496736

/-- Coefficient `a3` of `norm_cdf`. -/
def ncA3 : ℝ := 1.421413741

/-- Coefficient `a4` of `norm_cdf`. -/
def ncA4 : ℝ := -1.453152027

/-- Coefficient `a5` of `norm_cdf`. -/
def ncA5 : ℝ := 1.061405429

/-- Coefficient `p` of `norm_cdf`. -/
def ncP : ℝ := 0.3275911

/-- The local `t = 1/(1 + p*x)` of `norm_cdf`, as a function of the rescaled
argument `xs = |x|/sqrt(2)`. -/
def ncT (xs : ℝ) : ℝ := 1 / (1 + ncP * xs)

/-- The local `y` of `norm_cdf` (`src/utils/normal_dist.h`, line 29), as a
function of the rescaled argument `xs = |x|/sqrt(2)`. -/
def ncY (xs : ℝ) : ℝ :=
  1 - (((((ncA5 * ncT xs + ncA4) * ncT xs) + ncA3) * ncT xs + ncA2) * ncT xs + ncA1) *
    ncT xs * Real.exp (-(xs * xs))

/-- The function `norm_cdf(x)` from `src/utils/normal_dist.h`: Abramowitz & Stegun
approximation of the standard normal CDF, with hard cutoffs at `|x| > 8`.
The C++ body's locals `sign`, `t`, `y` are the inline conditional and
`ncT`/`ncY` above (the reassigned local `x = std::abs(x)/sqrt(2)` is their
argument). -/
def norm_cdf (x : ℝ) : ℝ :=
  if x > 8 then 1
  else if x < -8 then 0
  else 0.5 * (1 + (if x ≥ 0 then (1 : ℝ) else -1) * ncY (|x| / Real.sqrt 2))

/-- The function `norm_pdf(x)` from `src/utils/normal_dist.h`. -/
def norm_pdf (x : ℝ) : ℝ := 0.3989422804014327 * Real.exp (-0.5 * x * x)

/-- The helper `BlackScholes::calc_d1` from `src/pricing/black_scholes.h`. -/
def calc_d1 (p : OptionParams) : ℝ :=
  (Real.log (p.S / p.K) + (p.r - p.q + 0.5 * p.sigma * p.sigma) * p.T) /
    (p.sigma * Real.sqrt p.T)

/-- The `price` field computed by `BlackScholes::price`
(`src/pricing/black_scholes.h`); the timing and label fields of the C++
`PricingResult` are dropped. -/
def BlackScholes_price (p : OptionParams) : ℝ :=
  let d1 := calc_d1 p
  let d2 := d1 - p.sigma * Real.sqrt p.T
  let df := Real.exp (-p.r * p.T)
  let fwd_factor := Real.exp (-p.q * p.T)
  if p.type = OptionType.CALL then
    p.S * fwd_factor * norm_cdf d1 - p.K * df * norm_cdf d2
  else
    p.K * df * norm_cdf (-d2) - p.S * fwd_factor * norm_cdf (-d1)

/-- The function `BlackScholes::vega` from `src/pricing/black_scholes.h` (per 1% vol). -/
def BlackScholes_vega (p : OptionParams) : ℝ :=
  p.S * Real.exp (-p.q * p.T) * norm_pdf (calc_d1 p) * Real.sqrt p.T / 100

/-- Error taxonomy of the specification (InvalidParameter,
UnstableDiscretization); no corresponding type exists anywhere in the C++
sources. -/
inductive PricingError where
  | invalidParameter : PricingError
  | unstableDiscretization : PricingError
deriving DecidableEq

/-- The function `BlackScholes::price` seen through a failure-aware result type: the C++
function returns a `PricingResult` unconditionally — it performs no parameter
validation and can neither throw nor otherwise signal failure — so its
embedding is `Except.ok` on every input. -/
def BlackScholes_priceE (p : OptionParams) : Except PricingError ℝ :=
  Except.ok (BlackScholes_price p)

/-- The C++ `std::clamp(v, lo, hi)`: `lo` if `v < lo`, `hi` if `hi < v`, else `v`. -/
def clampR (v lo hi : ℝ) : ℝ :=
  if v < lo then lo else if hi < v then hi else v

/-- The Newton-Raphson loop of `ImpliedVolSolver::solve`
(`src/calibration/implied_vol.h`, lines 25-41), with the remaining iteration
budget as fuel.  `some sigma` is the in-loop `return sigma` on convergence;
`none` covers both the `break` on `|vega| < 1e-12` and budget exhaustion,
after which `solve` falls through to `bisection_solve`. -/
def newtonLoop (market_price S K T r q : ℝ) (type : OptionType) (tol : ℝ) :
    ℕ → ℝ → Option ℝ
  | 0, _ => none
  | fuel + 1, sigma =>
    let p : OptionParams := ⟨S, K, T, r, sigma, q, type, ExerciseStyle.EUROPEAN⟩
    let model_price := BlackScholes_price p
    let vega := BlackScholes_vega p * 100
    let diff := model_price - market_price
    if |diff| < tol then some sigma
    else if |vega| < 1e-12 then none
    else
      newtonLoop market_price S K T r q type tol fuel
        (clampR (sigma - diff / vega) 0.001 10)

/-- The bisection loop of `ImpliedVolSolver::bisection_solve`
(`src/calibration/implied_vol.h`, lines 56-70), remaining iterations as fuel;
at exhaustion it returns the final bracket midpoint. -/
def bisectLoop (market_price S K T r q : ℝ) (type : OptionType) (tol : ℝ) :
    ℕ → ℝ → ℝ → ℝ
  | 0, lo, hi => (lo + hi) / 2
  | fuel + 1, lo, hi =>
    let mid := (lo + hi) / 2
    let p : OptionParams := ⟨S, K, T, r, mid, q, type, ExerciseStyle.EUROPEAN⟩
    let model_price := BlackScholes_price p
    if |model_price - market_price| < tol then mid
    else if model_price > market_price then
      bisectLoop market_price S K T r q type tol fuel lo mid
    else
      bisectLoop market_price S K T r q type tol fuel mid hi

/-- The function `ImpliedVolSolver::bisection_solve`: 200 bisection iterations on the fixed
initial bracket `[0.001, 5.0]`. -/
def bisection_solve (market_price S K T r q : ℝ) (type : OptionType)
    (tol : ℝ := 1e-6) : ℝ :=
  bisectLoop market_price S K T r q type tol 200 0.001 5.0

/-- The Brenner-Subrahmanyam initial guess of `ImpliedVolSolver::solve`
(lines 22-23): `sqrt(2*pi/T)*market_price/S` clamped to `[0.01, 5.0]`. -/
def initialGuess (market_price S T : ℝ) : ℝ :=
  clampR (Real.sqrt (2 * Real.pi / T) * market_price / S) 0.01 5.0

/-- The function `ImpliedVolSolver::solve` (`src/calibration/implied_vol.h`): Newton from
the clamped initial guess for `max_iter` steps, then bisection fallback on
`[0.001, 5.0]` (the Newton `tol` is passed on to `bisection_solve`). -/
def ImpliedVolSolver_solve (market_price S K T r q : ℝ) (type : OptionType)
    (tol : ℝ := 1e-8) (max_iter : ℕ := 100) : ℝ :=
  match newtonLoop market_price S K T r q type tol max_iter
      (initialGuess market_price S T) with
  | some sigma => sigma
  | none => bisection_solve market_price S K T r q type tol

/-- Risk-neutral up factor `u = exp(sigma*sqrt(dt))` of `BinomialTree::price`
(`src/pricing/binomial_tree.h`), with `dt = T/steps`. -/
def binomU (p : OptionParams) (steps : ℕ) : ℝ :=
  Real.exp (p.sigma * Real.sqrt (p.T / steps))

/-- Down factor `d = 1/u` of `BinomialTree::price`. -/
def binomD (p : OptionParams) (steps : ℕ) : ℝ := 1 / binomU p steps

/-- Risk-neutral probability `prob = (exp((r-q)*dt) - d) / (u - d)` of
`BinomialTree::price`. -/
def binomProb (p : OptionParams) (steps : ℕ) : ℝ :=
  (Real.exp ((p.r - p.q) * (p.T / steps)) - binomD p steps) /
    (binomU p steps - binomD p steps)

/-- The node-value layers of `BinomialTree::price`'s backward induction:
layer `0` is the terminal-payoff array (lines 23-27); layer `j+1` is the
array after the outer-loop iteration with `step = steps - (j+1)`
(lines 30-42).  The C++ updates the array in place, but each pass reads
`prices[i+1]` before overwriting it, so the in-place sweep equals this
functional map over the previous layer. -/
def binomLevels (p : OptionParams) (steps : ℕ) : ℕ → List ℝ
  | 0 =>
    (List.range (steps + 1)).map (fun i =>
      intrinsic_value (p.S * binomU p steps ^ (steps - i) * binomD p steps ^ i)
        p.K p.type)
  | j + 1 =>
    let step := steps - (j + 1)
    let df := Real.exp (-p.r * (p.T / steps))
    let prob := binomProb p steps
    let next := binomLevels p steps j
    (List.range (step + 1)).map (fun i =>
      let continuation := df * (prob * next.getD i 0 + (1 - prob) * next.getD (i + 1) 0)
      if p.style = ExerciseStyle.AMERICAN then
        max continuation
          (intrinsic_value (p.S * binomU p steps ^ (step - i) * binomD p steps ^ i)
            p.K p.type)
      else continuation)

/-- The `price` field of `BinomialTree::price` (`src/pricing/binomial_tree.h`):
`prices[0]` after all `steps` backward-induction sweeps. -/
def BinomialTree_price (p : OptionParams) (steps : ℕ := 500) : ℝ :=
  (binomLevels p steps steps).getD 0 0

/-- The function `BinomialTree::price` through a failure-aware result type: the C++
function computes unconditionally — it performs no validation of the
risk-neutral probability and has no failure path — so its embedding is
`Except.ok` on every input. -/
def BinomialTree_priceE (p : OptionParams) (steps : ℕ := 500) :
    Except PricingError ℝ :=
  Except.ok (BinomialTree_price p steps)

/-- The C++ `enum class VarianceReduction` from `src/monte_carlo/mc_engine.h`. -/
inductive VarianceReduction where
  | NONE : VarianceReduction
  | ANTITHETIC : VarianceReduction
  | STRATIFIED : VarianceReduction
  | CONTROL_VARIATE : VarianceReduction
deriving DecidableEq

/-- Sum / size of a sample, as computed by `std::accumulate(...)/num_paths`. -/
def listMean (xs : List ℝ) : ℝ := xs.sum / xs.length

/-- Sample variance with the `num_paths - 1` divisor used throughout
`MonteCarloEngine` (`var /= (num_paths - 1)`). -/
def sampleVar (xs : List ℝ) : ℝ :=
  (xs.map (fun x => (x - listMean xs) * (x - listMean xs))).sum /
    ((xs.length : ℝ) - 1)

/-- The terminal asset value of one path of `MonteCarloEngine::price`
(line 51): `S * exp(drift + vol_sqrt_dt * z)` with `dt = T`. -/
def mcTerminal (p : OptionParams) (z : ℝ) : ℝ :=
  p.S * Real.exp ((p.r - p.q - 0.5 * p.sigma * p.sigma) * p.T +
    p.sigma * Real.sqrt p.T * z)

/-- The per-path payoffs of `MonteCarloEngine::price` (lines 49-53), with the
normal draws `z` given as an explicit list (the C++ obtains them from the
seeded generator selected by the variance-reduction mode; `num_paths` is the
length of the list). -/
def mcPayoffs (p : OptionParams) (z : List ℝ) : List ℝ :=
  z.map (fun zi => intrinsic_value (mcTerminal p zi) p.K p.type)

/-- The control-variate regression coefficient `beta` of
`MonteCarloEngine::price` (lines 69-80): sample covariance of (terminal,
payoff) over sample variance of the terminal, `0` if that variance is not
positive. -/
def mcBeta (p : OptionParams) (z : List ℝ) : ℝ :=
  let terminals := z.map (mcTerminal p)
  let payoffs := mcPayoffs p z
  let mean_terminal := listMean terminals
  let mean_payoff := listMean payoffs
  let cov := ((terminals.zip payoffs).map (fun tp =>
    (tp.1 - mean_terminal) * (tp.2 - mean_payoff))).sum
  let var_control := (terminals.map (fun t =>
    (t - mean_terminal) * (t - mean_terminal))).sum
  if var_control > 0 then cov / var_control else 0

/-- The beta-adjusted payoffs of the control-variate branch of
`MonteCarloEngine::price` (lines 83-86): `payoff - beta*(terminal - fwd)`
with `fwd = S*exp((r-q)*T)`. -/
def mcAdjusted (p : OptionParams) (z : List ℝ) : List ℝ :=
  let fwd := p.S * Real.exp ((p.r - p.q) * p.T)
  let beta := mcBeta p z
  ((z.map (mcTerminal p)).zip (mcPayoffs p z)).map (fun tp =>
    tp.2 - beta * (tp.1 - fwd))

/-- The `(price, std_error)` fields of `MonteCarloEngine::price`
(`src/monte_carlo/mc_engine.h`): discounted sample mean (clamped below at 0
by the final `std::max(price_est, 0.0)`) and discounted `sqrt(var/N)`, over
the plain payoffs, or over the beta-adjusted payoffs in the
CONTROL_VARIATE branch. -/
def MonteCarloEngine_price (p : OptionParams) (z : List ℝ)
    (vr : VarianceReduction) : ℝ × ℝ :=
  let df := Real.exp (-p.r * p.T)
  let samples :=
    if vr = VarianceReduction.CONTROL_VARIATE then mcAdjusted p z else mcPayoffs p z
  let price_est := df * listMean samples
  let std_err := df * Real.sqrt (sampleVar samples / samples.length)
  (max price_est 0, std_err)

/-- The `(price, std_error)` fields of `MonteCarloEngine::price_multistep`
(`src/monte_carlo/mc_engine.h`, lines 122-168): each path multiplies `S` by
`exp(drift + vol_sqrt_dt*z)` over `num_steps` sub-periods with
`dt = T/num_steps`; the draws are given as `zs path step` (the C++ derives
them from per-thread seeded generators). -/
def MonteCarloEngine_price_multistep (p : OptionParams) (num_paths num_steps : ℕ)
    (zs : ℕ → ℕ → ℝ) : ℝ × ℝ :=
  let dt := p.T / num_steps
  let drift := (p.r - p.q - 0.5 * p.sigma * p.sigma) * dt
  let vol_sqrt_dt := p.sigma * Real.sqrt dt
  let df := Real.exp (-p.r * p.T)
  let payoffs := (List.range num_paths).map (fun i =>
    intrinsic_value
      ((List.range num_steps).foldl
        (fun s t => s * Real.exp (drift + vol_sqrt_dt * zs i t)) p.S)
      p.K p.type)
  let price_est := df * listMean payoffs
  let std_err := df * Real.sqrt (sampleVar payoffs / payoffs.length)
  (max price_est 0, std_err)

/-- The function `RandomGenerator::generate_antithetic(n, ...)`
(`src/utils/random_gen.h`, lines 22-34) with the successive
`dist(rng)` draws given as the sequence `draws` (the i-th loop iteration
makes the i-th call).  Slot `j < 2*(n/2)` is written by pair iteration
`i = j/2` (as `z` for even `j`, `-z` for odd `j`); for odd `n` the last slot
gets the one extra draw `draws (n/2)`. -/
def generate_antithetic (n : ℕ) (draws : ℕ → ℝ) : List ℝ :=
  (List.range n).map (fun j =>
    if j < 2 * (n / 2) then
      (if j % 2 = 0 then draws (j / 2) else -(draws (j / 2)))
    else draws (n / 2))

/-- A double restricted to the values arising for `sqrt(sse/size)` in
`VolSurface::calibrate`: an ordinary finite real, or the IEEE special values
NaN and +infinity produced by a zero divisor. -/
inductive DVal where
  | nan : DVal
  | inf : DVal
  | fin : ℝ → DVal
deriving DecidableEq

/-- IEEE division for a nonnegative numerator: `0/0` is NaN, `a/0` with
`a ≠ 0` is +infinity, otherwise the real quotient. -/
def DVal.fdiv (a b : ℝ) : DVal :=
  if b = 0 then (if a = 0 then DVal.nan else DVal.inf) else DVal.fin (a / b)

/-- IEEE `std::sqrt` on nonnegative arguments: NaN and +infinity propagate. -/
def DVal.fsqrt : DVal → DVal
  | DVal.nan => DVal.nan
  | DVal.inf => DVal.inf
  | DVal.fin x => DVal.fin (Real.sqrt x)

/-- The C++ `struct MarketQuote` from `src/calibration/vol_surface.h`. -/
structure MarketQuote where
  strike : ℝ
  expiry : ℝ
  market_price : ℝ
  type : OptionType

/-- The C++ `struct VolSurfacePoint` from `src/pricing/types.h`. -/
structure VolSurfacePoint where
  strike : ℝ
  expiry : ℝ
  implied_vol : ℝ
  market_price : ℝ
  model_price : ℝ
  error : ℝ

/-- The C++ `struct CalibrationResult` from `src/pricing/types.h` (timing field
dropped; `total_rmse` carries the IEEE-aware value type since the empty
calibration divides by zero there). -/
structure CalibrationResult where
  surface : List VolSurfacePoint
  total_rmse : DVal
  max_error : ℝ
  iterations : ℕ

/-- The per-quote body of `VolSurface::calibrate`'s parallel loop
(`src/calibration/vol_surface.h`, lines 40-55): solve for the implied vol
(default `tol`/`max_iter`), re-price, and record the absolute error. -/
def calibratePoint (spot rate div_yield : ℝ) (q : MarketQuote) : VolSurfacePoint :=
  let iv := ImpliedVolSolver_solve q.market_price spot q.strike q.expiry rate
    div_yield q.type
  let model_price := BlackScholes_price
    ⟨spot, q.strike, q.expiry, rate, iv, div_yield, q.type, ExerciseStyle.EUROPEAN⟩
  ⟨q.strike, q.expiry, iv, q.market_price, model_price,
    |model_price - q.market_price|⟩

/-- The function `VolSurface::calibrate` (`src/calibration/vol_surface.h`): one surface
point per quote written to its own slot (the OpenMP fan-out is the map), then
the serial reduction `sse`, `max_error` (starting from 0), and
`total_rmse = sqrt(sse/size)` computed with IEEE division. -/
def VolSurface_calibrate (quotes : List MarketQuote) (spot rate : ℝ)
    (div_yield : ℝ := 0) : CalibrationResult :=
  let surface := quotes.map (calibratePoint spot rate div_yield)
  let sse := (surface.map (fun pt => pt.error * pt.error)).sum
  let max_error := surface.foldl (fun m pt => max m pt.error) 0
  ⟨surface, DVal.fsqrt (DVal.fdiv sse surface.length), max_error, quotes.length⟩

/-- Placeholder surface point used as the `getD` default when indexing. -/
def dummyPoint : VolSurfacePoint := ⟨0, 0, 0, 0, 0, 0⟩

/-- Placeholder quote used as the `getD` default when indexing. -/
def dummyQuote : MarketQuote := ⟨0, 0, 0, OptionType.CALL⟩

/-- Concrete contract used in the C5 witness. -/
def mcDemoParams : OptionParams :=
  ⟨100, 100, 1, 0, 0.2, 0, OptionType.CALL, ExerciseStyle.EUROPEAN⟩

/-- Concrete contract used in the C5 counterexample: a call struck above the
forward, so that with all paths in the money the control-variate adjusted
mean is `fwd - K < 0` and the zero clamp fires. -/
def cvParams : OptionParams :=
  ⟨100, 150, 1, 0, 1, 0, OptionType.CALL, ExerciseStyle.EUROPEAN⟩

/-! ## Theorems -/

/-- C9: the `price` field returned by `MonteCarloEngine::price` and by
`MonteCarloEngine::price_multistep` is never negative: the discounted-mean
estimate is clamped at zero by the final `std::max(price_est, 0.0)`. -/
theorem C9_mc_price_nonneg :
    (∀ (p : OptionParams) (z : List ℝ) (vr : VarianceReduction),
      0 ≤ (MonteCarloEngine_price p z vr).1) ∧
    (∀ (p : OptionParams) (num_paths num_steps : ℕ) (zs : ℕ → ℕ → ℝ),
      0 ≤ (MonteCarloEngine_price_multistep p num_paths num_steps zs).1) := by
  constructor
  · intro p z vr
    simp only [MonteCarloEngine_price]
    exact le_max_right _ _
  · intro p num_paths num_steps zs
    simp only [MonteCarloEngine_price_multistep]
    exact le_max_right _ _

/-- C10: calibrating an empty quote list does not fail: the surface is empty,
`max_error` is 0, and `total_rmse` is the IEEE NaN produced by the unguarded
division `sse / quotes.size()` = `0/0`. -/
theorem C10_calibrate_empty (spot rate div_yield : ℝ) :
    (VolSurface_calibrate [] spot rate div_yield).surface = [] ∧
    (VolSurface_calibrate [] spot rate div_yield).total_rmse = DVal.nan ∧
    (VolSurface_calibrate [] spot rate div_yield).max_error = 0 := by
  refine ⟨rfl, ?_, rfl⟩
  simp [VolSurface_calibrate, DVal.fdiv, DVal.fsqrt]

/-- C2 counterexample: at `S=100, K=100, T=1, r=0, sigma=-1, q=0` the input
has non-positive `sigma`, yet `BlackScholes::price` does not reject it with
an InvalidParameter failure — computation proceeds through the unguarded
formula (`d1 = -0.5`, `d2 = 0.5`) and an ordinary result is returned. -/
theorem C2_counterexample :
    (OptionParams.mk 100 100 1 0 (-1) 0 OptionType.CALL ExerciseStyle.EUROPEAN).sigma ≤ 0 ∧
    BlackScholes_priceE
        (OptionParams.mk 100 100 1 0 (-1) 0 OptionType.CALL ExerciseStyle.EUROPEAN)
      ≠ Except.error PricingError.invalidParameter ∧
    BlackScholes_priceE
        (OptionParams.mk 100 100 1 0 (-1) 0 OptionType.CALL ExerciseStyle.EUROPEAN)
      = Except.ok (100 * norm_cdf (-0.5) - 100 * norm_cdf 0.5) := by
  have hD : calc_d1 (OptionParams.mk 100 100 1 0 (-1) 0 OptionType.CALL
      ExerciseStyle.EUROPEAN) = -0.5 := by
    simp [calc_d1, Real.sqrt_one]
    norm_num
  have hval : BlackScholes_price (OptionParams.mk 100 100 1 0 (-1) 0 OptionType.CALL
      ExerciseStyle.EUROPEAN) = 100 * norm_cdf (-0.5) - 100 * norm_cdf 0.5 := by
    simp only [BlackScholes_price]
    rw [hD]
    norm_num [Real.sqrt_one]
  refine ⟨by norm_num, ?_, ?_⟩
  · simp [BlackScholes_priceE]
  · rw [BlackScholes_priceE, hval]

/-- C2 amended: `BlackScholes::price` performs no parameter validation and has
no failure channel at all: on every input, including non-positive
`S, K, T, sigma`, it returns an ordinary `PricingResult` computed from the
unguarded formula. -/
theorem C2_price_never_rejects (p : OptionParams) :
    ∃ v : ℝ, BlackScholes_priceE p = Except.ok v :=
  ⟨BlackScholes_price p, rfl⟩

/-- C3 counterexample: at `S=100, K=100, T=1, r=10, sigma=0.2, q=0` with one
step, the risk-neutral probability is not below 1 (the discretization is
unstable), yet `BinomialTree::price` does not report an
UnstableDiscretization failure — it returns an ordinary result. -/
theorem C3_counterexample :
    ¬ (0 < binomProb (OptionParams.mk 100 100 1 10 0.2 0 OptionType.CALL
          ExerciseStyle.EUROPEAN) 1 ∧
        binomProb (OptionParams.mk 100 100 1 10 0.2 0 OptionType.CALL
          ExerciseStyle.EUROPEAN) 1 < 1) ∧
    BinomialTree_priceE (OptionParams.mk 100 100 1 10 0.2 0 OptionType.CALL
        ExerciseStyle.EUROPEAN) 1
      ≠ Except.error PricingError.unstableDiscretization := by
  constructor
  · rintro ⟨-, hlt⟩
    have hprob : (1 : ℝ) ≤ binomProb (OptionParams.mk 100 100 1 10 0.2 0
        OptionType.CALL ExerciseStyle.EUROPEAN) 1 := by
      have hdt : ((1 : ℝ) / ((1 : ℕ) : ℝ)) = 1 := by norm_num
      have hu : binomU (OptionParams.mk 100 100 1 10 0.2 0 OptionType.CALL
          ExerciseStyle.EUROPEAN) 1 = Real.exp 0.2 := by
        simp [binomU, hdt, Real.sqrt_one]
      have hu1 : (1 : ℝ) < Real.exp 0.2 := by
        have := Real.add_one_le_exp (0.2 : ℝ)
        linarith
      have hd : binomD (OptionParams.mk 100 100 1 10 0.2 0 OptionType.CALL
          ExerciseStyle.EUROPEAN) 1 = (Real.exp 0.2)⁻¹ := by
        simp [binomD, hu]
      have hdlt : (Real.exp 0.2)⁻¹ < Real.exp 0.2 := by
        have h0 : (0 : ℝ) < Real.exp 0.2 := Real.exp_pos _
        have : (Real.exp 0.2)⁻¹ < 1 := by
          rw [inv_lt_one_iff₀]
          right
          exact hu1
        linarith
      have hE : Real.exp 0.2 ≤ Real.exp 10 := by
        apply Real.exp_le_exp.mpr
        norm_num
      unfold binomProb
      rw [hu, hd]
      rw [le_div_iff₀ (by linarith : (0 : ℝ) < Real.exp 0.2 - (Real.exp 0.2)⁻¹)]
      have harg : ((10 : ℝ) - 0) * ((1 : ℝ) / ((1 : ℕ) : ℝ)) = 10 := by norm_num
      simp only [harg]
      linarith
    linarith
  · simp [BinomialTree_priceE]

/-- C3 amended: `BinomialTree::price` performs no validation of the
risk-neutral probability and has no failure channel: on every input,
including those with `p` outside `(0,1)`, it silently carries out the
backward induction and returns an ordinary result. -/
theorem C3_price_never_rejects (p : OptionParams) (steps : ℕ) :
    ∃ v : ℝ, BinomialTree_priceE p steps = Except.ok v :=
  ⟨BinomialTree_price p steps, rfl⟩

/-- Indexing a mapped list: inside bounds it is the function at the element,
outside it is the default. -/
theorem getD_map_list {α β : Type} (f : α → β) (l : List α) (i : ℕ) (dα : α) (dβ : β)
    (h : i < l.length) : (l.map f).getD i dβ = f (l.getD i dα) := by
  rw [List.getD_eq_getElem?_getD, List.getD_eq_getElem?_getD, List.getElem?_map,
    List.getElem?_eq_getElem h]
  simp

/-- C7: `VolSurface::calibrate` returns exactly one surface point per input
quote, in the same order: the surface length equals the quote count, and the
point at index `i` carries the strike and expiry of quote `i`. -/
theorem C7_calibrate_shape (quotes : List MarketQuote) (spot rate div_yield : ℝ) :
    (VolSurface_calibrate quotes spot rate div_yield).surface.length = quotes.length ∧
    ∀ i : ℕ, i < quotes.length →
      ((VolSurface_calibrate quotes spot rate div_yield).surface.getD i dummyPoint).strike
          = (quotes.getD i dummyQuote).strike ∧
      ((VolSurface_calibrate quotes spot rate div_yield).surface.getD i dummyPoint).expiry
          = (quotes.getD i dummyQuote).expiry := by
  constructor
  · simp [VolSurface_calibrate]
  · intro i hi
    have hsurf : (VolSurface_calibrate quotes spot rate div_yield).surface
        = quotes.map (calibratePoint spot rate div_yield) := rfl
    rw [hsurf, getD_map_list (calibratePoint spot rate div_yield) quotes i dummyQuote
        dummyPoint hi]
    exact ⟨rfl, rfl⟩

/-- C7 witness: a one-quote calibration at index 0. -/
theorem C7_witness :
    (0 < ([MarketQuote.mk 50 2 7 OptionType.CALL] : List MarketQuote).length) ∧
    ((VolSurface_calibrate [MarketQuote.mk 50 2 7 OptionType.CALL] 100 0 0).surface.getD
        0 dummyPoint).strike
      = (([MarketQuote.mk 50 2 7 OptionType.CALL] : List MarketQuote).getD
          0 dummyQuote).strike :=
  ⟨by simp, ((C7_calibrate_shape [MarketQuote.mk 50 2 7 OptionType.CALL] 100 0 0).2 0
      (by simp)).1⟩

/-- C8: for even `n`, `RandomGenerator::generate_antithetic` returns
antithetic pairs: the sample at index `2i+1` is the negation of the sample at
index `2i`, for every pair index `i < n/2` (the underlying normal draws are
modelled as the input sequence `draws`). -/
theorem C8_antithetic_pairs (n : ℕ) (draws : ℕ → ℝ) (i : ℕ)
    (heven : n % 2 = 0) (hn : 2 ≤ n) (hi : i < n / 2) :
    (generate_antithetic n draws).getD (2 * i + 1) 0
      = -((generate_antithetic n draws).getD (2 * i) 0) := by
  have h1 : 2 * i + 1 < n := by omega
  have h0 : 2 * i < n := by omega
  unfold generate_antithetic
  rw [List.getD_eq_getElem?_getD, List.getD_eq_getElem?_getD, List.getElem?_map,
    List.getElem?_map]
  rw [List.getElem?_range h1, List.getElem?_range h0]
  have e1 : 2 * i + 1 < 2 * (n / 2) := by omega
  have e0 : 2 * i < 2 * (n / 2) := by omega
  have m1 : (2 * i + 1) % 2 = 1 := by omega
  have m0 : (2 * i) % 2 = 0 := by omega
  have d1 : (2 * i + 1) / 2 = i := by omega
  have d0 : (2 * i) / 2 = i := by omega
  simp [e1, e0, m1, m0, d1, d0]

/-- C8 witness: `n = 4`, pair index `i = 1`, draws `k ↦ k`. -/
theorem C8_witness :
    (4 % 2 = 0) ∧ (2 ≤ 4) ∧ (1 < 4 / 2) ∧
    (generate_antithetic 4 (fun k => (k : ℝ))).getD (2 * 1 + 1) 0
      = -((generate_antithetic 4 (fun k => (k : ℝ))).getD (2 * 1) 0) :=
  ⟨by decide, by decide, by decide,
    C8_antithetic_pairs 4 (fun k => (k : ℝ)) 1 (by decide) (by decide) (by decide)⟩

/-- The C++ `std::clamp` with an ordered bracket lands in the bracket. -/
theorem clampR_mem (v lo hi : ℝ) (h : lo ≤ hi) :
    lo ≤ clampR v lo hi ∧ clampR v lo hi ≤ hi := by
  unfold clampR
  split_ifs with h1 h2
  · exact ⟨le_refl lo, h⟩
  · exact ⟨h, le_refl hi⟩
  · exact ⟨not_lt.mp h1, not_lt.mp h2⟩

/-- Every volatility returned from inside the Newton loop entered with an
iterate in `[0.001, 10]` lies in `[0.001, 10]`: the value returned on
convergence is the iterate under test, and every new iterate is clamped. -/
theorem newtonLoop_mem (market_price S K T r q : ℝ) (type : OptionType) (tol : ℝ) :
    ∀ (fuel : ℕ) (sigma s : ℝ), 0.001 ≤ sigma → sigma ≤ 10 →
      newtonLoop market_price S K T r q type tol fuel sigma = some s →
      0.001 ≤ s ∧ s ≤ 10 := by
  intro fuel
  induction fuel with
  | zero =>
    intro sigma s h1 h2 h
    simp [newtonLoop] at h
  | succ n ih =>
    intro sigma s h1 h2 h
    simp only [newtonLoop] at h
    split_ifs at h with hdiff hvega
    · cases h
      exact ⟨h1, h2⟩
    · have hc := clampR_mem (sigma -
        (BlackScholes_price ⟨S, K, T, r, sigma, q, type, ExerciseStyle.EUROPEAN⟩
            - market_price) /
          (BlackScholes_vega ⟨S, K, T, r, sigma, q, type, ExerciseStyle.EUROPEAN⟩ * 100))
        0.001 10 (by norm_num)
      exact ih _ s hc.1 hc.2 h

/-- The bisection loop keeps its bracket inside the initial `[0.001, 5]`, so
every value it returns — an in-tolerance midpoint or the final midpoint —
lies in `[0.001, 5]`. -/
theorem bisectLoop_mem (market_price S K T r q : ℝ) (type : OptionType) (tol : ℝ) :
    ∀ (fuel : ℕ) (lo hi : ℝ), 0.001 ≤ lo → lo ≤ hi → hi ≤ 5 →
      0.001 ≤ bisectLoop market_price S K T r q type tol fuel lo hi ∧
      bisectLoop market_price S K T r q type tol fuel lo hi ≤ 5 := by
  intro fuel
  induction fuel with
  | zero =>
    intro lo hi h1 h2 h3
    simp only [bisectLoop]
    constructor <;> linarith
  | succ n ih =>
    intro lo hi h1 h2 h3
    simp only [bisectLoop]
    split_ifs with htol hgt
    · constructor <;> linarith
    · exact ih lo ((lo + hi) / 2) h1 (by linarith) (by linarith)
    · exact ih ((lo + hi) / 2) hi (by linarith) (by linarith) h3

/-- C1: for every market price, contract parameters, tolerance and iteration
budget, `ImpliedVolSolver::solve` returns a volatility in `[0.001, 10.0]`.
(Termination within the budgets is structural: the Newton loop runs at most
`max_iter` steps and the bisection fallback at most 200, both being
recursions on those fuels, and no branch signals an error.) -/
theorem C1_solve_bounded (market_price S K T r q : ℝ) (type : OptionType)
    (tol : ℝ) (max_iter : ℕ) :
    0.001 ≤ ImpliedVolSolver_solve market_price S K T r q type tol max_iter ∧
    ImpliedVolSolver_solve market_price S K T r q type tol max_iter ≤ 10 := by
  unfold ImpliedVolSolver_solve
  cases h : newtonLoop market_price S K T r q type tol max_iter
      (initialGuess market_price S T) with
  | some s =>
    have hg := clampR_mem (Real.sqrt (2 * Real.pi / T) * market_price / S) 0.01 5.0
      (by norm_num)
    exact newtonLoop_mem market_price S K T r q type tol max_iter
      (initialGuess market_price S T) s
      (by unfold initialGuess; linarith [hg.1]) (by unfold initialGuess; linarith [hg.2]) h
  | none =>
    have hb := bisectLoop_mem market_price S K T r q type tol 200 0.001 5.0
      le_rfl (by norm_num) (by norm_num)
    exact ⟨hb.1, by unfold bisection_solve; linarith [hb.2]⟩

/-- C6: whenever the Newton loop falls through (vega abort or exhausted
budget), `solve` returns exactly `bisection_solve`, which restarts from the
original fixed bracket `[0.001, 5.0]` with a budget of 200 iterations — the
last Newton iterate does not enter the fallback. -/
theorem C6_newton_fallback (market_price S K T r q : ℝ) (type : OptionType)
    (tol : ℝ) (max_iter : ℕ)
    (h : newtonLoop market_price S K T r q type tol max_iter
      (initialGuess market_price S T) = none) :
    ImpliedVolSolver_solve market_price S K T r q type tol max_iter
        = bisection_solve market_price S K T r q type tol ∧
    bisection_solve market_price S K T r q type tol
        = bisectLoop market_price S K T r q type tol 200 0.001 5.0 := by
  constructor
  · unfold ImpliedVolSolver_solve
    rw [h]
  · rfl

/-- C6 witness: with a zero Newton budget the loop trivially falls through
and `solve` is the bisection fallback. -/
theorem C6_witness :
    newtonLoop 10 100 100 1 0 0 OptionType.CALL 1e-8 0 (initialGuess 10 100 1) = none ∧
    ImpliedVolSolver_solve 10 100 100 1 0 0 OptionType.CALL 1e-8 0
      = bisection_solve 10 100 100 1 0 0 OptionType.CALL 1e-8 :=
  ⟨rfl, (C6_newton_fallback 10 100 100 1 0 0 OptionType.CALL 1e-8 0 rfl).1⟩

/-- The Abramowitz–Stegun polynomial factor at 0: the five coefficients sum
to `0.999999999`, so `y(0) = 1e-9` exactly. -/
theorem ncY_zero : ncY 0 = 1e-9 := by
  unfold ncY ncT ncA1 ncA2 ncA3 ncA4 ncA5 ncP
  norm_num

/-- For a strictly positive argument the two cutoff/sign branches of
`norm_cdf` cancel exactly: `norm_cdf x + norm_cdf (-x) = 1`. -/
theorem norm_cdf_reflect_pos (x : ℝ) (hx : 0 < x) :
    norm_cdf x + norm_cdf (-x) = 1 := by
  unfold norm_cdf
  rcases lt_or_le 8 x with h8 | h8
  · rw [if_pos h8, if_neg (by linarith : ¬(-x > 8)), if_pos (by linarith : -x < -8)]
    norm_num
  · rw [if_neg (by linarith : ¬(x > 8)), if_neg (by linarith : ¬(x < -8)),
      if_neg (by linarith : ¬(-x > 8)), if_neg (by linarith : ¬(-x < -8)),
      if_pos (by linarith : x ≥ 0), if_neg (by linarith : ¬(-x ≥ 0)), abs_neg]
    ring

/-- At 0 the sign convention `(x >= 0) ? 1 : -1` makes both halves evaluate
the same branch, so the reflection identity picks up the full `y(0) = 1e-9`. -/
theorem norm_cdf_zero_sum : norm_cdf 0 + norm_cdf (-0) = 1 + 1e-9 := by
  rw [neg_zero]
  unfold norm_cdf
  rw [if_neg (by norm_num : ¬((0:ℝ) > 8)), if_neg (by norm_num : ¬((0:ℝ) < -8)),
    if_pos (le_refl (0:ℝ)), abs_zero, zero_div, ncY_zero]
  norm_num

/-- The reflection defect of the `norm_cdf` approximation is at most `1e-9`
(zero except at the argument 0). -/
theorem norm_cdf_reflect (x : ℝ) : |norm_cdf x + norm_cdf (-x) - 1| ≤ 1e-9 := by
  rcases lt_trichotomy x 0 with h | h | h
  · have hs := norm_cdf_reflect_pos (-x) (by linarith)
    rw [neg_neg] at hs
    rw [add_comm] at hs
    rw [hs]
    norm_num
  · subst h
    rw [norm_cdf_zero_sum, abs_le]
    constructor <;> norm_num
  · rw [norm_cdf_reflect_pos x h]
    norm_num

/-- Scaled put-call parity bound from the two reflection defects. -/
theorem parity_core (Sq Kr c1 c2 p1 p2 : ℝ) (hSq : 0 ≤ Sq) (hKr : 0 ≤ Kr)
    (h1 : |c1 + p1 - 1| ≤ 1e-9) (h2 : |c2 + p2 - 1| ≤ 1e-9) :
    |Sq * c1 - Kr * c2 - (Kr * p2 - Sq * p1) - (Sq - Kr)| ≤ 1e-9 * (Sq + Kr) := by
  rw [abs_le] at h1 h2
  have a1 : Sq * (c1 + p1 - 1) ≤ Sq * 1e-9 := mul_le_mul_of_nonneg_left h1.2 hSq
  have a2 : Sq * (-1e-9) ≤ Sq * (c1 + p1 - 1) := mul_le_mul_of_nonneg_left h1.1 hSq
  have b1 : Kr * (c2 + p2 - 1) ≤ Kr * 1e-9 := mul_le_mul_of_nonneg_left h2.2 hKr
  have b2 : Kr * (-1e-9) ≤ Kr * (c2 + p2 - 1) := mul_le_mul_of_nonneg_left h2.1 hKr
  have e : Sq * c1 - Kr * c2 - (Kr * p2 - Sq * p1) - (Sq - Kr)
      = Sq * (c1 + p1 - 1) - Kr * (c2 + p2 - 1) := by ring
  rw [e, abs_le]
  constructor <;> nlinarith

/-- C4 counterexample: at `S=100, K=100, T=1, r=0.5, q=0, sigma=1` we get
`d2 = 0` exactly, where the approximation's reflection defect is `1e-9`; the
parity deviation is `1e-7 * e^{-1/2} ≈ 6.07e-8 > 1e-8`. -/
theorem C4_counterexample :
    ¬ (|BlackScholes_price ⟨100, 100, 1, 0.5, 1, 0, OptionType.CALL, ExerciseStyle.EUROPEAN⟩
        - BlackScholes_price ⟨100, 100, 1, 0.5, 1, 0, OptionType.PUT, ExerciseStyle.EUROPEAN⟩
        - (100 * Real.exp (-0 * 1) - 100 * Real.exp (-0.5 * 1))| ≤ 1e-8) := by
  intro habs
  rw [abs_le] at habs
  obtain ⟨hlo, hhi⟩ := habs
  have hD : calc_d1 ⟨100, 100, 1, 0.5, 1, 0, OptionType.CALL, ExerciseStyle.EUROPEAN⟩
      = 1 := by
    simp [calc_d1, Real.sqrt_one]
    norm_num
  have hsum1 : norm_cdf 1 + norm_cdf (-1) = 1 := norm_cdf_reflect_pos 1 (by norm_num)
  have h0 : norm_cdf (0 : ℝ) = (1 + 1e-9) / 2 := by
    have hz := norm_cdf_zero_sum
    rw [neg_zero] at hz
    linarith
  have hcall : BlackScholes_price
        ⟨100, 100, 1, 0.5, 1, 0, OptionType.CALL, ExerciseStyle.EUROPEAN⟩
      = 100 * Real.exp (-0 * 1) * norm_cdf 1
        - 100 * Real.exp (-0.5 * 1) * norm_cdf 0 := by
    simp only [BlackScholes_price]
    rw [hD]
    norm_num [Real.sqrt_one]
  have hput : BlackScholes_price
        ⟨100, 100, 1, 0.5, 1, 0, OptionType.PUT, ExerciseStyle.EUROPEAN⟩
      = 100 * Real.exp (-0.5 * 1) * norm_cdf 0
        - 100 * Real.exp (-0 * 1) * norm_cdf (-1) := by
    have hDp : calc_d1 ⟨100, 100, 1, 0.5, 1, 0, OptionType.PUT, ExerciseStyle.EUROPEAN⟩
        = 1 := hD
    simp only [BlackScholes_price]
    rw [hDp]
    norm_num [Real.sqrt_one]
    intro h
    exact absurd h (by decide)
  have key : BlackScholes_price
        ⟨100, 100, 1, 0.5, 1, 0, OptionType.CALL, ExerciseStyle.EUROPEAN⟩
      - BlackScholes_price
        ⟨100, 100, 1, 0.5, 1, 0, OptionType.PUT, ExerciseStyle.EUROPEAN⟩
      - (100 * Real.exp (-0 * 1) - 100 * Real.exp (-0.5 * 1))
      = -(1e-7) * Real.exp (-0.5 * 1) := by
    rw [hcall, hput]
    have h1 : norm_cdf (-1 : ℝ) = 1 - norm_cdf 1 := by linarith
    rw [h1, h0]
    ring
  have hEr : (1 : ℝ) / 10 < Real.exp (-0.5 * 1) := by
    have h5 : Real.exp (-0.5 * 1 : ℝ) * Real.exp (0.5 * 1) = 1 := by
      rw [← Real.exp_add]
      norm_num
    have h6 : Real.exp (0.5 * 1 : ℝ) < 10 := by
      have hd9 := Real.exp_one_lt_d9
      have hm := Real.exp_le_exp.mpr (by norm_num : (0.5 * 1 : ℝ) ≤ 1)
      linarith
    nlinarith [Real.exp_pos (-0.5 * 1 : ℝ)]
  rw [key] at hlo
  linarith

/-- C4 amended: put-call parity holds up to the reflection defect of the
shared `norm_cdf` approximation, which scales with the discounted spot and
strike: `|Call - Put - (S e^{-qT} - K e^{-rT})| ≤ 1e-9 (S e^{-qT} + K e^{-rT})`
(the fixed absolute tolerance 1e-8 fails when `d1` or `d2` is exactly 0 and
the discounted legs are large). -/
theorem C4_parity_scaled (S K T r q sigma : ℝ)
    (hS : 0 < S) (hK : 0 < K) (hT : 0 < T) (hsigma : 0 < sigma) :
    |BlackScholes_price ⟨S, K, T, r, sigma, q, OptionType.CALL, ExerciseStyle.EUROPEAN⟩
      - BlackScholes_price ⟨S, K, T, r, sigma, q, OptionType.PUT, ExerciseStyle.EUROPEAN⟩
      - (S * Real.exp (-q * T) - K * Real.exp (-r * T))|
      ≤ 1e-9 * (S * Real.exp (-q * T) + K * Real.exp (-r * T)) := by
  have hc := norm_cdf_reflect
    (calc_d1 ⟨S, K, T, r, sigma, q, OptionType.CALL, ExerciseStyle.EUROPEAN⟩)
  have hp := norm_cdf_reflect
    (calc_d1 ⟨S, K, T, r, sigma, q, OptionType.CALL, ExerciseStyle.EUROPEAN⟩
      - sigma * Real.sqrt T)
  have hcall : BlackScholes_price
        ⟨S, K, T, r, sigma, q, OptionType.CALL, ExerciseStyle.EUROPEAN⟩
      = S * Real.exp (-q * T) * norm_cdf
          (calc_d1 ⟨S, K, T, r, sigma, q, OptionType.CALL, ExerciseStyle.EUROPEAN⟩)
        - K * Real.exp (-r * T) * norm_cdf
          (calc_d1 ⟨S, K, T, r, sigma, q, OptionType.CALL, ExerciseStyle.EUROPEAN⟩
            - sigma * Real.sqrt T) := by
    simp [BlackScholes_price]
  have hd1eq : calc_d1 ⟨S, K, T, r, sigma, q, OptionType.PUT, ExerciseStyle.EUROPEAN⟩
      = calc_d1 ⟨S, K, T, r, sigma, q, OptionType.CALL, ExerciseStyle.EUROPEAN⟩ := rfl
  have hput : BlackScholes_price
        ⟨S, K, T, r, sigma, q, OptionType.PUT, ExerciseStyle.EUROPEAN⟩
      = K * Real.exp (-r * T) * norm_cdf
          (-(calc_d1 ⟨S, K, T, r, sigma, q, OptionType.CALL, ExerciseStyle.EUROPEAN⟩
            - sigma * Real.sqrt T))
        - S * Real.exp (-q * T) * norm_cdf
          (-(calc_d1 ⟨S, K, T, r, sigma, q, OptionType.CALL, ExerciseStyle.EUROPEAN⟩)) := by
    simp [BlackScholes_price, hd1eq]
  rw [hcall, hput]
  exact parity_core (S * Real.exp (-q * T)) (K * Real.exp (-r * T)) _ _ _ _
    (mul_nonneg hS.le (Real.exp_pos _).le) (mul_nonneg hK.le (Real.exp_pos _).le) hc hp

/-- C4 witness: the spec's own example contract
`S=100, K=105, T=0.5, r=0.05, q=0.02, sigma=0.25`. -/
theorem C4_witness :
    ((0:ℝ) < 100 ∧ (0:ℝ) < 105 ∧ (0:ℝ) < 0.5 ∧ (0:ℝ) < 0.25) ∧
    |BlackScholes_price ⟨100, 105, 0.5, 0.05, 0.25, 0.02, OptionType.CALL, ExerciseStyle.EUROPEAN⟩
      - BlackScholes_price ⟨100, 105, 0.5, 0.05, 0.25, 0.02, OptionType.PUT, ExerciseStyle.EUROPEAN⟩
      - (100 * Real.exp (-0.02 * 0.5) - 105 * Real.exp (-0.05 * 0.5))|
      ≤ 1e-9 * (100 * Real.exp (-0.02 * 0.5) + 105 * Real.exp (-0.05 * 0.5)) :=
  ⟨⟨by norm_num, by norm_num, by norm_num, by norm_num⟩,
    C4_parity_scaled 100 105 0.5 0.05 0.02 0.25 (by norm_num) (by norm_num)
      (by norm_num) (by norm_num)⟩

/-- The payoff vector has one entry per path. -/
theorem mcPayoffs_length (p : OptionParams) (z : List ℝ) :
    (mcPayoffs p z).length = z.length := by
  simp [mcPayoffs]

/-- The beta-adjusted payoff vector has one entry per path. -/
theorem mcAdjusted_length (p : OptionParams) (z : List ℝ) :
    (mcAdjusted p z).length = z.length := by
  simp [mcAdjusted, mcPayoffs]

/-- Every plain payoff is nonnegative (an intrinsic value). -/
theorem mcPayoffs_nonneg (p : OptionParams) (z : List ℝ) :
    ∀ x ∈ mcPayoffs p z, 0 ≤ x := by
  intro x hx
  simp only [mcPayoffs, List.mem_map] at hx
  obtain ⟨zi, -, rfl⟩ := hx
  unfold intrinsic_value
  split_ifs <;> exact le_max_right _ _

/-- The `num_paths - 1` sample variance is nonnegative for at least two
samples. -/
theorem sampleVar_nonneg (xs : List ℝ) (h : 2 ≤ xs.length) : 0 ≤ sampleVar xs := by
  unfold sampleVar
  apply div_nonneg
  · apply List.sum_nonneg
    intro x hx
    simp only [List.mem_map] at hx
    obtain ⟨y, -, rfl⟩ := hx
    exact mul_self_nonneg _
  · have hc : (2 : ℝ) ≤ (xs.length : ℝ) := by exact_mod_cast h
    linarith

/-- C5 amended: for at least two paths, `MonteCarloEngine::price` returns as
`price` the discounted sample mean of the (beta-adjusted, under
CONTROL_VARIATE) payoffs clamped below at zero — the clamp is the identity
for the non-control-variate modes, whose payoffs are nonnegative — and as
`std_error` the discounted sample standard deviation (`num_paths - 1`
divisor) divided by `sqrt(N)`. -/
theorem C5_estimator_form (p : OptionParams) (z : List ℝ) (vr : VarianceReduction)
    (h : 2 ≤ z.length) :
    (MonteCarloEngine_price p z vr).1
      = max (Real.exp (-p.r * p.T) * listMean
          (if vr = VarianceReduction.CONTROL_VARIATE then mcAdjusted p z
           else mcPayoffs p z)) 0 ∧
    (MonteCarloEngine_price p z vr).2
      = Real.exp (-p.r * p.T) * (Real.sqrt (sampleVar
          (if vr = VarianceReduction.CONTROL_VARIATE then mcAdjusted p z
           else mcPayoffs p z)) / Real.sqrt (z.length)) ∧
    (vr ≠ VarianceReduction.CONTROL_VARIATE →
      (MonteCarloEngine_price p z vr).1
        = Real.exp (-p.r * p.T) * listMean (mcPayoffs p z)) := by
  have hlen : (if vr = VarianceReduction.CONTROL_VARIATE then mcAdjusted p z
      else mcPayoffs p z).length = z.length := by
    split_ifs
    · exact mcAdjusted_length p z
    · exact mcPayoffs_length p z
  refine ⟨rfl, ?_, ?_⟩
  · have hvar : 0 ≤ sampleVar (if vr = VarianceReduction.CONTROL_VARIATE
        then mcAdjusted p z else mcPayoffs p z) := by
      apply sampleVar_nonneg
      rw [hlen]
      exact h
    simp only [MonteCarloEngine_price]
    rw [hlen, Real.sqrt_div hvar]
  · intro hvr
    simp only [MonteCarloEngine_price, if_neg hvr]
    apply max_eq_left
    apply mul_nonneg (Real.exp_pos _).le
    unfold listMean
    apply div_nonneg
    · exact List.sum_nonneg (mcPayoffs_nonneg p z)
    · positivity

/-- C5 witness: two plain-mode paths with zero draws. -/
theorem C5_witness :
    (2 ≤ ([0, 0] : List ℝ).length) ∧
    (VarianceReduction.NONE ≠ VarianceReduction.CONTROL_VARIATE) ∧
    (MonteCarloEngine_price mcDemoParams [0, 0] VarianceReduction.NONE).1
      = Real.exp (-mcDemoParams.r * mcDemoParams.T)
        * listMean (mcPayoffs mcDemoParams [0, 0]) :=
  ⟨by simp, by simp,
    (C5_estimator_form mcDemoParams [0, 0] VarianceReduction.NONE (by simp)).2.2
      (by simp)⟩

/-- C5 counterexample: for the control-variate mode with draws `[2, 1.5]` on
`cvParams`, the returned `price` is 0 (clamped), not the discounted sample
mean of the beta-adjusted payoffs, which is -50. -/
theorem C5_counterexample :
    (2 ≤ ([2, 1.5] : List ℝ).length) ∧
    (MonteCarloEngine_price cvParams [2, 1.5] VarianceReduction.CONTROL_VARIATE).1
      ≠ Real.exp (-cvParams.r * cvParams.T)
        * listMean (mcAdjusted cvParams [2, 1.5]) := by
  have hr : cvParams.r = 0 := rfl
  have hT : cvParams.T = 1 := rfl
  have ht1 : mcTerminal cvParams 2 = 100 * Real.exp 1.5 := by
    unfold mcTerminal cvParams
    norm_num [Real.sqrt_one]
  have ht2 : mcTerminal cvParams 1.5 = 100 * Real.exp 1 := by
    unfold mcTerminal cvParams
    norm_num [Real.sqrt_one]
  have hA : (2.5 : ℝ) ≤ Real.exp 1.5 := by
    have := Real.add_one_le_exp (1.5 : ℝ)
    linarith
  have hB : (2 : ℝ) ≤ Real.exp 1 := by
    have := Real.add_one_le_exp (1 : ℝ)
    linarith
  have hAB : Real.exp 1 < Real.exp 1.5 := Real.exp_lt_exp.mpr (by norm_num)
  have hp1 : intrinsic_value (100 * Real.exp 1.5) 150 OptionType.CALL
      = 100 * Real.exp 1.5 - 150 := by
    unfold intrinsic_value
    rw [if_pos rfl]
    exact max_eq_left (by linarith)
  have hp2 : intrinsic_value (100 * Real.exp 1) 150 OptionType.CALL
      = 100 * Real.exp 1 - 150 := by
    unfold intrinsic_value
    rw [if_pos rfl]
    exact max_eq_left (by linarith)
  have hterm : ([2, 1.5] : List ℝ).map (mcTerminal cvParams)
      = [100 * Real.exp 1.5, 100 * Real.exp 1] := by
    simp [ht1, ht2]
  have hpay : mcPayoffs cvParams [2, 1.5]
      = [100 * Real.exp 1.5 - 150, 100 * Real.exp 1 - 150] := by
    have hK : cvParams.K = 150 := rfl
    have hty : cvParams.type = OptionType.CALL := rfl
    simp only [mcPayoffs, List.map_cons, List.map_nil, ht1, ht2, hK, hty, hp1, hp2]
  have hmt : listMean [100 * Real.exp 1.5, 100 * Real.exp 1]
      = 50 * (Real.exp 1.5 + Real.exp 1) := by
    simp [listMean]
    ring
  have hmp : listMean [100 * Real.exp 1.5 - 150, 100 * Real.exp 1 - 150]
      = 50 * (Real.exp 1.5 + Real.exp 1) - 150 := by
    simp [listMean]
    ring
  have hbeta : mcBeta cvParams [2, 1.5] = 1 := by
    simp only [mcBeta]
    rw [hterm, hpay, hmt, hmp]
    simp only [List.zip_cons_cons, List.zip_nil_right, List.map_cons, List.map_nil,
      List.sum_cons, List.sum_nil]
    have hpos : (0 : ℝ) <
        (100 * Real.exp 1.5 - 50 * (Real.exp 1.5 + Real.exp 1)) *
          (100 * Real.exp 1.5 - 50 * (Real.exp 1.5 + Real.exp 1)) +
        ((100 * Real.exp 1 - 50 * (Real.exp 1.5 + Real.exp 1)) *
          (100 * Real.exp 1 - 50 * (Real.exp 1.5 + Real.exp 1)) + 0) := by
      nlinarith [hAB]
    rw [if_pos hpos]
    rw [div_eq_one_iff_eq (ne_of_gt hpos)]
    ring
  have hfwd : cvParams.S * Real.exp ((cvParams.r - cvParams.q) * cvParams.T)
      = 100 := by
    have hS : cvParams.S = 100 := rfl
    have hq : cvParams.q = 0 := rfl
    rw [hS, hq, hr, hT]
    norm_num
  have hadj : mcAdjusted cvParams [2, 1.5] = [(-50 : ℝ), -50] := by
    simp only [mcAdjusted]
    rw [hterm, hpay, hbeta, hfwd]
    simp only [List.zip_cons_cons, List.zip_nil_right, List.map_cons, List.map_nil]
    norm_num
  have hmean_adj : listMean [(-50 : ℝ), -50] = -50 := by
    simp [listMean]
  have hL : (MonteCarloEngine_price cvParams [2, 1.5]
      VarianceReduction.CONTROL_VARIATE).1 = 0 := by
    simp only [MonteCarloEngine_price, eq_self_iff_true, if_true]
    rw [hadj, hmean_adj, hr, hT]
    rw [max_eq_right (by norm_num)]
  have hR : Real.exp (-cvParams.r * cvParams.T)
      * listMean (mcAdjusted cvParams [2, 1.5]) = -50 := by
    rw [hadj, hmean_adj, hr, hT]
    norm_num
  refine ⟨by simp, ?_⟩
  rw [hL, hR]
  norm_num

end opt

end
